import Mathlib

/-!
Verification development for the `bytes` byte-buffer library.

The Rust source is shallowly embedded as follows:

* Machine memory is modelled by a `Heap`: a list of live buffer allocations
  (each an `Alloc`: a base address and its byte content), a list of live
  reference-count headers (`Header`, keyed by an abstract header address),
  lists of already-freed allocation/header addresses (so that leaks and
  double frees are observable), allocation counters, and a `ub` flag that is
  set whenever an operation touches freed memory (use after free, double
  free, or a null/garbage pointer dereference).
* `Bytes` mirrors `struct Bytes { ptr, len, data: AtomicPtr<()>, vtable }`
  from src/bytes.rs.  The atomic `data` word is modelled by `Word`:
  `Word.header h` is a pointer to a heap header (its low tag bit is 0, which
  the source guarantees by the `size_of::<Shared>() % 2 == 0` check), and
  `Word.tagged a` is the raw backing-buffer address carrying the
  `KIND_UNSHARED` tag bit (for the even sub-variant the stored word is
  `a | 1`, for the odd sub-variant it is `a` itself, which is odd; both
  decode back to the buffer address `a`, which is what the constructor
  records).  The vtable pointer is modelled by the enumeration `VKind`.
* Sequential executions of the atomic operations are modelled directly; the
  compare-and-swap of `shallow_clone_vec` takes the observed word and the
  cell's current word as separate arguments so that both the success arm and
  the failure arm of the source can be executed.
* Bytes are `Nat`s (only their identity matters); `usize`/`isize` overflow
  checks are kept explicit against `isizeMax = 2^63 - 1` (a 64-bit target).
* A Rust panic is modelled as `Except.error` carrying the assertion message;
  reading through a possibly dangling pointer sets `Heap.ub`.
-/

/-- One live buffer allocation: its base address and its bytes. -/
structure Alloc where
  base : Nat
  content : List Nat
  deriving DecidableEq

/-- Does this allocation cover the byte range `[p, p + n)`? -/
def Alloc.covers (a : Alloc) (p n : Nat) : Bool :=
  a.base ≤ p && p + n ≤ a.base + a.content.length

/-- Read `n` bytes starting at absolute address `p` out of this allocation. -/
def Alloc.read (a : Alloc) (p n : Nat) : List Nat :=
  (a.content.drop (p - a.base)).take n

/-- The `Shared` header of src/bytes.rs: backing-buffer pointer, capacity,
and reference count (the atomic count is modelled as a plain `Nat` since we
execute operations sequentially). -/
structure Header where
  buf : Nat
  cap : Nat
  refCnt : Nat
  deriving DecidableEq

/-- The machine state: static memory, live heap allocations, live headers,
records of freed addresses, fresh-address counters, and an
undefined-behaviour flag. -/
structure Heap where
  statics : List Alloc
  allocs : List Alloc
  freedAllocs : List Nat
  headers : List (Nat × Header)
  freedHeaders : List Nat
  nextHid : Nat
  nextAddr : Nat
  ub : Bool
  deriving DecidableEq

/-- Look up a live header by its address. -/
def Heap.findHeader (H : Heap) (hid : Nat) : Option Header :=
  (H.headers.find? (fun p => p.1 == hid)).map (fun p => p.2)

/-- Overwrite the fields of a live header. -/
def Heap.setHeader (H : Heap) (hid : Nat) (hd : Header) : Heap :=
  { H with headers := H.headers.map (fun p => if p.1 == hid then (hid, hd) else p) }

/-- Release the raw memory of a header (`Box::from_raw` + letting the box
fall out of scope after moving its content out): the header ceases to be
live but no destructor side effect happens.  Freeing a header that is not
live is a double free. -/
def Heap.freeHeaderMem (H : Heap) (hid : Nat) : Heap :=
  match H.findHeader hid with
  | some _ =>
      { H with headers := H.headers.eraseP (fun p => p.1 == hid),
               freedHeaders := hid :: H.freedHeaders }
  | none => { H with ub := true }

/-- `dealloc(base, Layout::from_size_align(size, 1))`: free a live buffer
allocation.  Freeing an unknown address, or freeing with a layout size that
does not match the allocation, is undefined behaviour. -/
def Heap.deallocBuf (H : Heap) (base size : Nat) : Heap :=
  match H.allocs.find? (fun a => a.base == base) with
  | some a =>
      { H with allocs := H.allocs.eraseP (fun x => x.base == base),
               freedAllocs := base :: H.freedAllocs,
               ub := H.ub || !(a.content.length == size) }
  | none => { H with ub := true }

/-- Read the `n` bytes at address `p`.  Reading zero bytes always succeeds
with `[]`; otherwise some live (or static) allocation must cover the range. -/
def Heap.readBytes? (H : Heap) (p n : Nat) : Option (List Nat) :=
  if n = 0 then some []
  else
    match (H.statics ++ H.allocs).find? (fun a => a.covers p n) with
    | some a => some (a.read p n)
    | none => none

/-- The value of the `data: AtomicPtr<()>` cell of a `Bytes`. -/
inductive Word where
  | null
  | header (hid : Nat)
  | tagged (bufAddr : Nat)
  deriving DecidableEq

/-- Which of the four vtables (src/bytes.rs) a `Bytes` carries. -/
inductive VKind where
  | static
  | shared
  | promotableEven
  | promotableOdd
  deriving DecidableEq

/-- Is this one of the two promotable vtables? -/
def VKind.isPromotable : VKind → Bool
  | VKind.promotableEven => true
  | VKind.promotableOdd => true
  | _ => false

/-- `struct Bytes { ptr, len, data, vtable }`. -/
structure Bytes where
  ptr : Nat
  len : Nat
  word : Word
  vt : VKind
  deriving DecidableEq

/-- `Bytes::from_static`: wrap a static slice; the data word is null and the
vtable is the static one. -/
def Bytes.from_static (addr len : Nat) : Bytes :=
  { ptr := addr, len := len, word := Word.null, vt := VKind.static }

/-- The address of the program-embedded `EMPTY: &[u8] = &[]` slice. -/
def EMPTY_PTR : Nat := 1

/-- `Bytes::new()`: the empty static buffer. -/
def Bytes.new : Bytes := Bytes.from_static EMPTY_PTR 0

/-- `shallow_clone_arc`: bump the header's reference count and return a new
shared `Bytes` over the same view.  Touching a header that is no longer live
is a use after free. -/
def shallow_clone_arc (H : Heap) (hid : Nat) (ptr len : Nat) : Heap × Bytes :=
  match H.findHeader hid with
  | some hd =>
      (H.setHeader hid { hd with refCnt := hd.refCnt + 1 },
       { ptr := ptr, len := len, word := Word.header hid, vt := VKind.shared })
  | none =>
      ({ H with ub := true },
       { ptr := ptr, len := len, word := Word.header hid, vt := VKind.shared })

/-- `shallow_clone_vec`: promotion of a not-yet-shared buffer.  A fresh
header `{ buf, cap := (offset - buf) + len, ref_cnt := 2 }` is allocated,
then the provenance word is compare-and-swapped from the value `observed` at
the earlier load to the new header pointer; `current` is the value actually
in the cell at the swap.  On success the function returns the new cell word
and a shared clone on the new header.  On failure (another clone installed a
header first) the source executes
`let shared: Box<Shared> = Box::from_raw(actual); mem::forget(*shared);`
— it rebuilds a box from the *winning* header, moves the `Shared` value out
and forgets it (skipping its destructor), which frees the winning header's
memory when the box goes out of scope, leaves the header it itself just
allocated live but unreachable, and then performs a shared-style clone
against the now-freed winning header. -/
def shallow_clone_vec (H : Heap) (observed current : Word) (buf ptr len : Nat) :
    Heap × Word × Bytes :=
  let hid := H.nextHid
  let hd : Header := { buf := buf, cap := (ptr - buf) + len, refCnt := 2 }
  let H0 : Heap := { H with headers := (hid, hd) :: H.headers, nextHid := H.nextHid + 1 }
  if observed = current then
    (H0, Word.header hid,
     { ptr := ptr, len := len, word := Word.header hid, vt := VKind.shared })
  else
    match current with
    | Word.header whid =>
        let H1 := H0.freeHeaderMem whid
        let (H2, c) := shallow_clone_arc H1 whid ptr len
        (H2, current, c)
    | _ =>
        ({ H0 with ub := true }, current,
         { ptr := ptr, len := len, word := current, vt := VKind.shared })

/-- `Clone for Bytes`, dispatching through the vtable exactly as the source
does.  The result is `(heap, the original value after the call, the clone)`:
the original value is returned as well because promotion updates its
provenance cell through the compare-and-swap.  In a sequential execution the
word observed by the load is still the cell's current word, so the
compare-and-swap succeeds. -/
def cloneM (H : Heap) (b : Bytes) : Heap × Bytes × Bytes :=
  match b.vt, b.word with
  | VKind.static, _ => (H, b, Bytes.from_static b.ptr b.len)
  | VKind.shared, Word.header hid =>
      let (H', c) := shallow_clone_arc H hid b.ptr b.len
      (H', b, c)
  | VKind.shared, _ => ({ H with ub := true }, b, b)
  | VKind.promotableEven, Word.header hid =>
      let (H', c) := shallow_clone_arc H hid b.ptr b.len
      (H', b, c)
  | VKind.promotableOdd, Word.header hid =>
      let (H', c) := shallow_clone_arc H hid b.ptr b.len
      (H', b, c)
  | VKind.promotableEven, Word.tagged buf =>
      let (H', w', c) := shallow_clone_vec H b.word b.word buf b.ptr b.len
      (H', { b with word := w' }, c)
  | VKind.promotableOdd, Word.tagged buf =>
      let (H', w', c) := shallow_clone_vec H b.word b.word buf b.ptr b.len
      (H', { b with word := w' }, c)
  | VKind.promotableEven, Word.null => ({ H with ub := true }, b, b)
  | VKind.promotableOdd, Word.null => ({ H with ub := true }, b, b)

/-- `release_shared`: decrement the reference count; when the decrement
observes a previous count of 1, drop the `Box<Shared>` — the `Shared`
destructor frees the backing buffer with layout size `cap`, then the header
memory itself is freed. -/
def release_shared (H : Heap) (hid : Nat) : Heap :=
  match H.findHeader hid with
  | none => { H with ub := true }
  | some hd =>
      if hd.refCnt ≠ 1 then H.setHeader hid { hd with refCnt := hd.refCnt - 1 }
      else (H.deallocBuf hd.buf hd.cap).freeHeaderMem hid

/-- `free_boxed_slice`: free an unshared boxed buffer with layout size
`(offset - buf) + len`. -/
def free_boxed_slice (H : Heap) (buf ptr len : Nat) : Heap :=
  H.deallocBuf buf ((ptr - buf) + len)

/-- `Drop for Bytes`, dispatching through the vtable. -/
def dropM (H : Heap) (b : Bytes) : Heap :=
  match b.vt, b.word with
  | VKind.static, _ => H
  | VKind.shared, Word.header hid => release_shared H hid
  | VKind.shared, _ => { H with ub := true }
  | VKind.promotableEven, Word.header hid => release_shared H hid
  | VKind.promotableOdd, Word.header hid => release_shared H hid
  | VKind.promotableEven, Word.tagged buf => free_boxed_slice H buf b.ptr b.len
  | VKind.promotableOdd, Word.tagged buf => free_boxed_slice H buf b.ptr b.len
  | VKind.promotableEven, Word.null => { H with ub := true }
  | VKind.promotableOdd, Word.null => { H with ub := true }

/-- A `Box<[u8]>`: base address of its allocation and its bytes (a boxed
slice has no spare capacity). -/
structure BoxU8 where
  addr : Nat
  data : List Nat
  deriving DecidableEq

/-- A `Vec<u8>`: base address, initialized bytes, and capacity. -/
structure VecU8 where
  addr : Nat
  data : List Nat
  cap : Nat
  deriving DecidableEq

/-- `From<Box<[u8]>> for Bytes`: an empty box yields `Bytes::new()`;
otherwise the box pointer's parity selects the even or odd promotable
vtable, and the data word stores the buffer address with the
`KIND_UNSHARED` tag. -/
def Bytes.from_box (bx : BoxU8) : Bytes :=
  if bx.data = [] then Bytes.new
  else if bx.addr % 2 = 0 then
    { ptr := bx.addr, len := bx.data.length, word := Word.tagged bx.addr,
      vt := VKind.promotableEven }
  else
    { ptr := bx.addr, len := bx.data.length, word := Word.tagged bx.addr,
      vt := VKind.promotableOdd }

/-- `From<Vec<u8>> for Bytes`: when `len == cap` the vector is converted to
a boxed slice without moving (`into_boxed_slice` does not reallocate in that
case) and handled by `from_box`; otherwise a `Shared` header
`{ buf := ptr, cap, ref_cnt := 1 }` is allocated and the result is a shared
`Bytes` adopting the vector's allocation. -/
def Bytes.from_vec (H : Heap) (v : VecU8) : Heap × Bytes :=
  if v.data.length = v.cap then (H, Bytes.from_box { addr := v.addr, data := v.data })
  else
    let hid := H.nextHid
    let H' : Heap :=
      { H with headers := (hid, { buf := v.addr, cap := v.cap, refCnt := 1 }) :: H.headers,
               nextHid := H.nextHid + 1 }
    (H', { ptr := v.addr, len := v.data.length, word := Word.header hid, vt := VKind.shared })

/-- `Bytes::copy_from_slice`: `src.to_vec().into()` — `to_vec` allocates a
fresh exact-capacity vector holding a copy of the bytes (no allocation for
an empty slice, where the vector's pointer is dangling). -/
def Bytes.copy_from_slice (H : Heap) (s : List Nat) : Heap × Bytes :=
  if s.length = 0 then Bytes.from_vec H { addr := 1, data := s, cap := 0 }
  else
    let base := H.nextAddr
    let H' : Heap := { H with allocs := { base := base, content := s } :: H.allocs,
                              nextAddr := H.nextAddr + s.length }
    Bytes.from_vec H' { addr := base, data := s, cap := s.length }

/-- One bound of a `RangeBounds<usize>` argument. -/
inductive BoundM where
  | included (n : Nat)
  | excluded (n : Nat)
  | unbounded
  deriving DecidableEq

/-- `Bytes::slice`, exactly as written in src/bytes.rs lines 142-179: an
unbounded start resolves to 0 and an unbounded END ALSO RESOLVES TO 0; the
asserts reject `start > end` and `end > len`; `start == end` returns
`Bytes::new()`; otherwise the receiver is cloned and the clone's view is
narrowed.  The result is `(heap, the receiver after the call, the slice)`. -/
def Bytes.slice (H : Heap) (b : Bytes) (sb eb : BoundM) :
    Except String (Heap × Bytes × Bytes) :=
  let len := b.len
  let start :=
    match sb with
    | BoundM.included s => s
    | BoundM.excluded s => s + 1
    | BoundM.unbounded => 0
  let e :=
    match eb with
    | BoundM.included e => e + 1
    | BoundM.excluded e => e
    | BoundM.unbounded => 0
  if start ≤ e then
    if e ≤ len then
      if start = e then Except.ok (H, b, Bytes.new)
      else
        Except.ok ((cloneM H b).1, (cloneM H b).2.1,
          { (cloneM H b).2.2 with len := e - start,
                                  ptr := (cloneM H b).2.2.ptr + start })
    else Except.error "invalid bounds: end out of bounds"
  else Except.error "invalid bounds: start > end"

/-- `Bytes::inc_start`: assert `inc <= len`, then shrink the view from the
front. -/
def Bytes.inc_start (b : Bytes) (inc : Nat) : Except String Bytes :=
  if inc ≤ b.len then Except.ok { b with len := b.len - inc, ptr := b.ptr + inc }
  else Except.error "assertion failed: inc <= self.len()"

/-- `Bytes::split_off`: assert `at <= len`; clone, truncate the receiver to
`[0, at)`, advance the clone to `[at, len)`. -/
def Bytes.split_off (H : Heap) (b : Bytes) (at_ : Nat) :
    Except String (Heap × Bytes × Bytes) :=
  if at_ ≤ b.len then
    match (cloneM H b).2.2.inc_start at_ with
    | Except.ok ret' =>
        Except.ok ((cloneM H b).1, { (cloneM H b).2.1 with len := at_ }, ret')
    | Except.error e => Except.error e
  else Except.error "index out of bounds"

/-- `Bytes::split_to`: assert `at <= len`; clone, advance the receiver to
`[at, len)`, truncate the clone to `[0, at)`. -/
def Bytes.split_to (H : Heap) (b : Bytes) (at_ : Nat) :
    Except String (Heap × Bytes × Bytes) :=
  if at_ ≤ b.len then
    match (cloneM H b).2.1.inc_start at_ with
    | Except.ok b'' =>
        Except.ok ((cloneM H b).1, b'', { (cloneM H b).2.2 with len := at_ })
    | Except.error e => Except.error e
  else Except.error "index out of bounds"

/-- `isize::MAX` on a 64-bit target. -/
def isizeMax : Nat := 9223372036854775807

/-- `struct BytesMut { ptr, len, cap }` from src/bytes_mut.rs: base address
of its (exclusively owned) allocation, the initialized bytes, and the
capacity.  `len` is `data.length`. -/
structure BytesMut where
  addr : Nat
  data : List Nat
  cap : Nat
  deriving DecidableEq

/-- `BytesMut::grow`: capacity 0 becomes 1, otherwise the capacity doubles;
`assert!(cap <= isize::MAX)`.  The allocator's resize primitive preserves
the existing bytes (the pure model keeps the base address: resizing in
place). -/
def BytesMut.grow (g : BytesMut) : Except String BytesMut :=
  let cap := if g.cap = 0 then 1 else 2 * g.cap
  if cap ≤ isizeMax then Except.ok { g with cap := cap }
  else Except.error "allocation too large"

/-- `BytesMut::push`: grow when `len == cap`, then write the byte at offset
`len` and bump `len`. -/
def BytesMut.push (g : BytesMut) (b : Nat) : Except String BytesMut :=
  match (if g.data.length = g.cap then g.grow else Except.ok g) with
  | Except.ok g' => Except.ok { g' with data := g'.data ++ [b] }
  | Except.error e => Except.error e

/-- `BytesMut::pop`. -/
def BytesMut.pop (g : BytesMut) : Option (Nat × BytesMut) :=
  if g.data.length = 0 then none
  else (g.data.getLast?).map (fun b => (b, { g with data := g.data.dropLast }))

/-- `BytesMut::inner_reserve`: `assert!(cap <= isize::MAX)`, then realloc to
exactly `cap` (bytes preserved). -/
def BytesMut.inner_reserve (g : BytesMut) (cap : Nat) : Except String BytesMut :=
  if cap ≤ isizeMax then Except.ok { g with cap := cap }
  else Except.error "capacity too large"

/-- `BytesMut::reserve`: no-op when the slack `cap - len` already covers the
request, otherwise grow to `cap + (res - rem)`, i.e. to exactly
`len + res`. -/
def BytesMut.reserve (g : BytesMut) (res : Nat) : Except String BytesMut :=
  let rem := g.cap - g.data.length
  if rem ≥ res then Except.ok g
  else g.inner_reserve (g.cap + (res - rem))

/-- `BytesMut::extend_from_slice`: reserve, then copy the slice to offset
`len` and bump `len`. -/
def BytesMut.extend_from_slice (g : BytesMut) (s : List Nat) : Except String BytesMut :=
  match g.reserve s.length with
  | Except.ok g' => Except.ok { g' with data := g'.data ++ s }
  | Except.error e => Except.error e

/-- `<BytesMut as BufMut>::put_slice`, which the source overrides to
`extend_from_slice`. -/
def BytesMut.put_slice (g : BytesMut) (s : List Nat) : Except String BytesMut :=
  g.extend_from_slice s

/-- `BytesMut::to_vec`: hand the allocation over to a `Vec` unchanged. -/
def BytesMut.to_vec (g : BytesMut) : VecU8 :=
  { addr := g.addr, data := g.data, cap := g.cap }

/-- `BytesMut::freeze`: `self.to_vec().into()`. -/
def BytesMut.freeze (H : Heap) (g : BytesMut) : Heap × Bytes :=
  Bytes.from_vec H g.to_vec

/-- Modelled from the spec: a destination implementing the `BufMut`
capability of section 4.3 over one contiguous region — `remainingCapacity`
is `cap - len` and `nextWritableChunk` is the whole region `[len, cap)`.
No `BufMut` implementation with a bounded `remaining_mut` exists under
src/ (the two implementations there report `isize::MAX - len`), so this
instance is taken from the spec's description to exercise the trait's
default `put_slice` algorithm. -/
structure CapBuf where
  cap : Nat
  data : List Nat
  deriving DecidableEq

/-- The copy loop of the default `BufMut::put_slice` (src/buf/buf_mut.rs
lines 60-72), instantiated at a `CapBuf` destination: while source bytes
remain, take `count = min(dst chunk length, remaining source)`, copy `count`
bytes into the chunk, and advance the destination.  When `count = 0` with
source bytes remaining the source loops forever; the model returns `none`
for that (the state would repeat exactly). -/
def put_slice_loop (cap : Nat) (data rest : List Nat) : Option (List Nat) :=
  match rest with
  | [] => some data
  | x :: xs =>
      let count := min (cap - data.length) (x :: xs).length
      if count = 0 then none
      else put_slice_loop cap (data ++ (x :: xs).take count) ((x :: xs).drop count)
termination_by rest.length
decreasing_by
  simp only [List.length_drop]
  rename_i h
  have h1 : 0 < min (cap - data.length) (x :: xs).length := Nat.pos_of_ne_zero h
  have h2 : min (cap - data.length) (x :: xs).length ≤ (x :: xs).length :=
    Nat.min_le_right _ _
  simp only [List.length_cons] at h2 ⊢
  omega

/-- The default `BufMut::put_slice` (src/buf/buf_mut.rs lines 50-73) at a
`CapBuf` destination: assert up front that `remaining_mut() >= src.len()`,
then run the copy loop.  `Except.error` is the assertion panic (raised
before any byte is written); `Except.ok none` would be divergence of the
loop. -/
def put_slice_default (d : CapBuf) (src : List Nat) : Except String (Option CapBuf) :=
  if d.cap - d.data.length < src.length then
    Except.error "not enough space remaining in BufMut"
  else
    Except.ok ((put_slice_loop d.cap d.data src).map
      (fun data => { cap := d.cap, data := data }))

/-! ### Helper lemmas -/

theorem cloneM_view (H : Heap) (b : Bytes) :
    (cloneM H b).2.2.ptr = b.ptr ∧ (cloneM H b).2.2.len = b.len ∧
    (cloneM H b).2.1.ptr = b.ptr ∧ (cloneM H b).2.1.len = b.len := by
  rcases b with ⟨ptr, len, word, vt⟩
  cases vt <;> cases word <;>
    simp [cloneM, shallow_clone_arc, shallow_clone_vec, Bytes.from_static] <;>
    (try split) <;> simp

theorem cloneM_mem (H : Heap) (b : Bytes) :
    (cloneM H b).1.allocs = H.allocs ∧ (cloneM H b).1.statics = H.statics := by
  rcases b with ⟨ptr, len, word, vt⟩
  cases vt <;> cases word <;>
    simp [cloneM, shallow_clone_arc, shallow_clone_vec, Heap.setHeader] <;>
    (try split) <;> simp [Heap.setHeader]

theorem readBytes?_congr (H H' : Heap) (hs : H'.statics = H.statics)
    (ha : H'.allocs = H.allocs) (p n : Nat) :
    H'.readBytes? p n = H.readBytes? p n := by
  unfold Heap.readBytes?
  rw [hs, ha]

theorem readBytes?_length (H : Heap) (p n : Nat) (cs : List Nat)
    (h : H.readBytes? p n = some cs) : cs.length = n := by
  unfold Heap.readBytes? at h
  split at h
  · cases h; simp; omega
  · rename_i hn
    split at h
    · rename_i a hfind
      have hp := List.find?_some hfind
      cases h
      simp [Alloc.covers, Bool.and_eq_true, decide_eq_true_eq] at hp
      simp [Alloc.read, List.length_take, List.length_drop]
      omega
    · cases h

/-- Allocations do not overlap. -/
def Alloc.disj (a b : Alloc) : Prop :=
  a.base + a.content.length ≤ b.base ∨ b.base + b.content.length ≤ a.base

instance (a b : Alloc) : Decidable (Alloc.disj a b) :=
  inferInstanceAs (Decidable (_ ∨ _))

/-- Well-formed memory: the static and heap allocations are pairwise
disjoint. -/
def Heap.wfDisjoint (H : Heap) : Prop :=
  (H.statics ++ H.allocs).Pairwise Alloc.disj

theorem covers_sub {a : Alloc} {p n s m : Nat} (h : a.covers p n = true)
    (hsm : s + m ≤ n) : a.covers (p + s) m = true := by
  simp [Alloc.covers, Bool.and_eq_true, decide_eq_true_eq] at h ⊢
  omega

theorem find?_covers_sub (p n s m : Nat) (hm : m ≠ 0) (hsm : s + m ≤ n) :
    ∀ (L : List Alloc) (a : Alloc), L.Pairwise Alloc.disj →
      L.find? (fun x => x.covers p n) = some a →
      L.find? (fun x => x.covers (p + s) m) = some a := by
  intro L
  induction L with
  | nil => intro a _ hfind; simp at hfind
  | cons c L ih =>
    intro a hpw hfind
    rcases List.pairwise_cons.mp hpw with ⟨hdisj, hpwL⟩
    cases hc : c.covers p n with
    | true =>
      rw [List.find?_cons_of_pos (p := fun x => x.covers p n) L hc] at hfind
      obtain rfl : c = a := by simpa using hfind
      rw [List.find?_cons_of_pos (p := fun x => x.covers (p + s) m) L (covers_sub hc hsm)]
    | false =>
      rw [List.find?_cons_of_neg (p := fun x => x.covers p n) L (by simp [hc])] at hfind
      have hmem : a ∈ L := List.mem_of_find?_eq_some hfind
      have hpa := List.find?_some hfind
      have hc2 : c.covers (p + s) m = false := by
        cases hcov : c.covers (p + s) m with
        | false => rfl
        | true =>
          exfalso
          have hd := hdisj a hmem
          simp [Alloc.covers, Bool.and_eq_true, decide_eq_true_eq] at hcov hpa
          rcases hd with hd | hd <;> omega
      rw [List.find?_cons_of_neg (p := fun x => x.covers (p + s) m) L (by simp [hc2])]
      exact ih a hpwL hfind

/-- Reading a sub-range of a readable range yields the corresponding
sub-list of its content. -/
theorem readBytes?_sub (H : Heap) (hd : H.wfDisjoint) (p n s m : Nat)
    (cs : List Nat) (h : H.readBytes? p n = some cs) (hsm : s + m ≤ n) :
    H.readBytes? (p + s) m = some ((cs.drop s).take m) := by
  rcases Nat.eq_zero_or_pos m with hm | hm
  · subst hm
    simp [Heap.readBytes?]
  · have hm0 : m ≠ 0 := Nat.pos_iff_ne_zero.mp hm
    have hn0 : n ≠ 0 := by omega
    unfold Heap.readBytes? at h ⊢
    rw [if_neg hn0] at h
    rw [if_neg hm0]
    rcases hfind : (H.statics ++ H.allocs).find? (fun a => a.covers p n) with _ | a
    · rw [hfind] at h; cases h
    · rw [hfind] at h
      cases h
      rw [find?_covers_sub p n s m hm0 hsm _ a hd hfind]
      have hpa := List.find?_some hfind
      simp only [Alloc.covers, Bool.and_eq_true, decide_eq_true_eq] at hpa
      obtain ⟨hp1, hp2⟩ := hpa
      simp only [Alloc.read, Option.some.injEq]
      rw [List.drop_take, List.drop_drop, List.take_take]
      have h1 : p + s - a.base = p - a.base + s := by omega
      have h2 : min m (n - s) = m := by
        have : m ≤ n - s := by omega
        exact Nat.min_eq_left this
      rw [h1, h2]

/-! ### Concrete states used by closed theorems -/

/-- A heap whose static memory holds the five bytes of `b"hello"` at
address 100. -/
def helloHeap : Heap :=
  { statics := [{ base := 100, content := [104, 101, 108, 108, 111] }],
    allocs := [], freedAllocs := [], headers := [], freedHeaders := [],
    nextHid := 0, nextAddr := 200, ub := false }

/-- `Bytes::from_static(b"hello")`. -/
def helloBytes : Bytes := Bytes.from_static 100 5

/-- A heap in which a promotion race has just been lost: the winning clone
installed header 0 `{ buf := 2, cap := 3, ref_cnt := 2 }` over the
allocation at address 2, and the losing clone observed the still-unshared
tagged word before that. -/
def raceHeap : Heap :=
  { statics := [], allocs := [{ base := 2, content := [1, 2, 3] }],
    freedAllocs := [], headers := [(0, { buf := 2, cap := 3, refCnt := 2 })],
    freedHeaders := [], nextHid := 1, nextAddr := 10, ub := false }

/-- The loser's `shallow_clone_vec` call: it observed `tagged 2` but the
cell now holds `header 0`, so its compare-and-swap fails. -/
def raceOut : Heap × Word × Bytes :=
  shallow_clone_vec raceHeap (Word.tagged 2) (Word.header 0) 2 2 3

/-- C3: `Bytes::slice` resolves an unbounded end bound to 0, not to the
buffer's length.  On `Bytes::from_static(b"hello")` the suffix range `1..`
therefore panics with "start > end" (the claim requires content `b"ello"`,
which is readable at `ptr + 1`), and the full range `..` returns the empty
`Bytes::new()` instead of the whole 5-byte content. -/
theorem slice_unbounded_end_resolves_to_zero :
    Bytes.slice helloHeap helloBytes (BoundM.included 1) BoundM.unbounded =
      Except.error "invalid bounds: start > end" ∧
    Bytes.slice helloHeap helloBytes BoundM.unbounded BoundM.unbounded =
      Except.ok (helloHeap, helloBytes, Bytes.new) ∧
    Bytes.new.len = 0 ∧
    helloHeap.readBytes? (helloBytes.ptr + 1) 4 = some [101, 108, 108, 111] ∧
    helloHeap.readBytes? helloBytes.ptr helloBytes.len =
      some [104, 101, 108, 108, 111] :=
  ⟨rfl, rfl, rfl, rfl, rfl⟩

/-- C4: when the promotion compare-and-swap fails, the source frees the
WINNING header's memory (`Box::from_raw(actual)` followed by moving the
`Shared` value out and forgetting it), leaves the header it itself just
allocated live (leaked, recorded here as header 1 still in the live list),
and then increments a reference count inside the freed winning header
(use after free, `ub = true`); the returned `Bytes` still points at the
freed header 0. -/
theorem shallow_clone_vec_cas_failure_frees_winner :
    raceOut.1.freedHeaders = [0] ∧
    raceOut.1.headers = [(1, { buf := 2, cap := 3, refCnt := 2 })] ∧
    raceOut.1.ub = true ∧
    raceOut.2.2.word = Word.header 0 :=
  ⟨rfl, rfl, rfl, rfl⟩

/-- A heap holding the exact-capacity allocation `[1,2,3]` at address 2. -/
def vecHeapFull : Heap :=
  { statics := [], allocs := [{ base := 2, content := [1, 2, 3] }],
    freedAllocs := [], headers := [], freedHeaders := [], nextHid := 0,
    nextAddr := 10, ub := false }

/-- C1 counterexample: a vector whose capacity EQUALS its length is
converted with PROMOTABLE provenance (the boxed-slice path), not Shared as
the claim states. -/
theorem from_vec_no_slack_not_shared_cex :
    ([1, 2, 3] : List Nat).length = 3 ∧
    vecHeapFull.readBytes? 2 3 = some [1, 2, 3] ∧
    (Bytes.from_vec vecHeapFull { addr := 2, data := [1, 2, 3], cap := 3 }).2.vt =
      VKind.promotableEven ∧
    VKind.promotableEven ≠ VKind.shared :=
  ⟨rfl, rfl, rfl, by decide⟩

/-- A heap holding the two-byte allocation `[7, 9]` at address 2 (one byte
initialized, one byte of slack). -/
def bmHeapSlack : Heap :=
  { statics := [], allocs := [{ base := 2, content := [7, 9] }],
    freedAllocs := [], headers := [], freedHeaders := [], nextHid := 0,
    nextAddr := 10, ub := false }

/-- C2 counterexample: freezing a `BytesMut` with `len = 1 < cap = 2`
produces SHARED provenance (a header is allocated on the spot), not the
Promotable provenance the claim states. -/
theorem freeze_with_slack_not_promotable_cex :
    (BytesMut.freeze bmHeapSlack { addr := 2, data := [7], cap := 2 }).2.vt =
      VKind.shared ∧
    VKind.isPromotable VKind.shared = false ∧
    (BytesMut.freeze bmHeapSlack { addr := 2, data := [7], cap := 2 }).1.headers =
      [(0, { buf := 2, cap := 2, refCnt := 1 })] :=
  ⟨rfl, rfl, rfl⟩

/-- A heap holding the one-byte allocation `[9]` at address 2. -/
def vecHeapEmptySlack : Heap :=
  { statics := [], allocs := [{ base := 2, content := [9] }],
    freedAllocs := [], headers := [], freedHeaders := [], nextHid := 0,
    nextAddr := 10, ub := false }

/-- C10 counterexample: converting an EMPTY vector that still has capacity 1
yields a SHARED buffer that adopts the allocation and allocates a
reference-count header — not the Static empty buffer the claim states. -/
theorem from_empty_vec_with_capacity_not_static_cex :
    (Bytes.from_vec vecHeapEmptySlack { addr := 2, data := [], cap := 1 }).2.vt =
      VKind.shared ∧
    VKind.shared ≠ VKind.static ∧
    (Bytes.from_vec vecHeapEmptySlack { addr := 2, data := [], cap := 1 }).1.headers =
      [(0, { buf := 2, cap := 1, refCnt := 1 })] :=
  ⟨rfl, by decide, rfl⟩

/-- C10 (amended): constructing from an empty vector WITH ZERO CAPACITY,
from an empty boxed slice, or by `copy_from_slice` of an empty slice yields
the Static-provenance empty buffer: length 0, the heap untouched (no
allocation adopted, no header), and its clone and drop are no-ops that
leave the heap — in particular every reference count — unchanged. -/
theorem empty_construction_static (H : Heap) (a : Nat) :
    Bytes.from_vec H { addr := a, data := [], cap := 0 } = (H, Bytes.new) ∧
    Bytes.from_box { addr := a, data := [] } = Bytes.new ∧
    Bytes.copy_from_slice H [] = (H, Bytes.new) ∧
    Bytes.new.len = 0 ∧
    Bytes.new.vt = VKind.static ∧
    cloneM H Bytes.new = (H, Bytes.new, Bytes.new) ∧
    dropM H Bytes.new = H :=
  ⟨rfl, rfl, rfl, rfl, rfl, rfl, rfl⟩

/-- Behaviour of `From<Vec<u8>> for Bytes` on a well-formed vector: content
is adopted in place; Shared provenance (with a fresh header
`{ buf := addr, cap, ref_cnt := 1 }`) exactly when `len != cap`; Promotable
provenance (tagged word, heap untouched) when `len == cap` and the vector is
nonempty; the Static empty buffer when the vector is empty with capacity
0. -/
theorem from_vec_behavior (H : Heap) (v : VecU8)
    (hle : v.data.length ≤ v.cap)
    (hrd : H.readBytes? v.addr v.data.length = some v.data) :
    (Bytes.from_vec H v).1.readBytes? (Bytes.from_vec H v).2.ptr
        (Bytes.from_vec H v).2.len = some v.data ∧
    (Bytes.from_vec H v).2.len = v.data.length ∧
    (v.data.length ≠ v.cap →
       (Bytes.from_vec H v).2.vt = VKind.shared ∧
       (Bytes.from_vec H v).2.ptr = v.addr ∧
       (Bytes.from_vec H v).2.word = Word.header H.nextHid ∧
       (Bytes.from_vec H v).1.headers
         = (H.nextHid, { buf := v.addr, cap := v.cap, refCnt := 1 }) :: H.headers ∧
       (Bytes.from_vec H v).1.allocs = H.allocs ∧
       (Bytes.from_vec H v).1.statics = H.statics) ∧
    (v.data.length = v.cap → v.data ≠ [] →
       (Bytes.from_vec H v).2.vt.isPromotable = true ∧
       (Bytes.from_vec H v).2.ptr = v.addr ∧
       (Bytes.from_vec H v).2.word = Word.tagged v.addr ∧
       (Bytes.from_vec H v).1 = H) ∧
    (v.data = [] → v.cap = 0 → Bytes.from_vec H v = (H, Bytes.new)) := by
  rcases v with ⟨addr, data, cap⟩
  dsimp only at hle hrd ⊢
  by_cases hlc : data.length = cap
  · by_cases hnil : data = []
    · subst hnil
      have hcap : cap = 0 := by simpa using hlc.symm
      subst hcap
      have heq : Bytes.from_vec H ⟨addr, [], 0⟩ = (H, Bytes.new) := rfl
      rw [heq]
      exact ⟨rfl, rfl, fun h => absurd rfl h, fun _ h => absurd rfl h, fun _ _ => rfl⟩
    · have heq : Bytes.from_vec H ⟨addr, data, cap⟩ =
          (H, Bytes.from_box ⟨addr, data⟩) := by
        unfold Bytes.from_vec
        dsimp only
        rw [if_pos hlc]
      have hbx : (Bytes.from_box ⟨addr, data⟩).ptr = addr ∧
          (Bytes.from_box ⟨addr, data⟩).len = data.length ∧
          (Bytes.from_box ⟨addr, data⟩).vt.isPromotable = true ∧
          (Bytes.from_box ⟨addr, data⟩).word = Word.tagged addr := by
        unfold Bytes.from_box
        dsimp only
        rw [if_neg hnil]
        by_cases ha : addr % 2 = 0
        · rw [if_pos ha]; exact ⟨rfl, rfl, rfl, rfl⟩
        · rw [if_neg ha]; exact ⟨rfl, rfl, rfl, rfl⟩
      rw [heq]
      obtain ⟨hb1, hb2, hb3, hb4⟩ := hbx
      refine ⟨?_, hb2, fun h => absurd hlc h, fun _ _ => ⟨hb3, hb1, hb4, rfl⟩,
              fun h => absurd h hnil⟩
      rw [hb1, hb2]
      exact hrd
  · have heq : Bytes.from_vec H ⟨addr, data, cap⟩ =
        ({ H with headers := (H.nextHid, { buf := addr, cap := cap, refCnt := 1 })
                               :: H.headers,
                  nextHid := H.nextHid + 1 },
         { ptr := addr, len := data.length, word := Word.header H.nextHid,
           vt := VKind.shared }) := by
      unfold Bytes.from_vec
      dsimp only
      rw [if_neg hlc]
    rw [heq]
    refine ⟨?_, rfl, fun _ => ⟨rfl, rfl, rfl, rfl, rfl, rfl⟩, fun h => absurd h hlc,
            fun h1 h2 => ?_⟩
    · exact (readBytes?_congr H _ rfl rfl addr data.length).trans hrd
    · exfalso
      apply hlc
      rw [h1, h2]
      rfl

/-- C1 (corrected): `Bytes::from(Vec<u8>)` and `Bytes::from(Box<[u8]>)`
adopt the source allocation in place — the resulting pointer is the
source's pointer and the content is the source's content, no byte copied —
but the provenance is Shared exactly when the vector's capacity DIFFERS
from its length (a fresh header `{ buf, cap, ref_cnt := 1 }` is allocated,
and no new buffer allocation happens), Promotable (tagged word, heap
untouched) when capacity equals length and the source is nonempty, and the
Static empty buffer when the source is empty with capacity 0. -/
theorem from_owned_adopts_allocation :
    (∀ (H : Heap) (v : VecU8), v.data.length ≤ v.cap →
       H.readBytes? v.addr v.data.length = some v.data →
       (Bytes.from_vec H v).1.readBytes? (Bytes.from_vec H v).2.ptr
           (Bytes.from_vec H v).2.len = some v.data ∧
       (Bytes.from_vec H v).2.len = v.data.length ∧
       (v.data.length ≠ v.cap →
          (Bytes.from_vec H v).2.vt = VKind.shared ∧
          (Bytes.from_vec H v).2.ptr = v.addr ∧
          (Bytes.from_vec H v).2.word = Word.header H.nextHid ∧
          (Bytes.from_vec H v).1.headers
            = (H.nextHid, { buf := v.addr, cap := v.cap, refCnt := 1 }) :: H.headers ∧
          (Bytes.from_vec H v).1.allocs = H.allocs ∧
          (Bytes.from_vec H v).1.statics = H.statics) ∧
       (v.data.length = v.cap → v.data ≠ [] →
          (Bytes.from_vec H v).2.vt.isPromotable = true ∧
          (Bytes.from_vec H v).2.ptr = v.addr ∧
          (Bytes.from_vec H v).2.word = Word.tagged v.addr ∧
          (Bytes.from_vec H v).1 = H) ∧
       (v.data = [] → v.cap = 0 → Bytes.from_vec H v = (H, Bytes.new))) ∧
    (∀ bx : BoxU8, bx.data ≠ [] →
       (Bytes.from_box bx).ptr = bx.addr ∧
       (Bytes.from_box bx).len = bx.data.length ∧
       (Bytes.from_box bx).vt.isPromotable = true ∧
       (Bytes.from_box bx).word = Word.tagged bx.addr) := by
  refine ⟨fun H v h1 h2 => from_vec_behavior H v h1 h2, fun bx hnil => ?_⟩
  rcases bx with ⟨addr, data⟩
  dsimp only at hnil ⊢
  unfold Bytes.from_box
  dsimp only
  rw [if_neg hnil]
  by_cases ha : addr % 2 = 0
  · rw [if_pos ha]; exact ⟨rfl, rfl, rfl, rfl⟩
  · rw [if_neg ha]; exact ⟨rfl, rfl, rfl, rfl⟩

/-- Witness for C1's theorem: a no-slack vector (promotable path) and a
nonempty box, at concrete inputs. -/
theorem from_owned_adopts_allocation_witness :
    (Bytes.from_vec vecHeapFull { addr := 2, data := [1, 2, 3], cap := 3 }).2.ptr = 2 ∧
    (Bytes.from_vec vecHeapFull { addr := 2, data := [1, 2, 3], cap := 3 }).2.vt.isPromotable
      = true ∧
    (Bytes.from_box { addr := 3, data := [5] }).ptr = 3 :=
  have h1 := (from_owned_adopts_allocation.1 vecHeapFull
    { addr := 2, data := [1, 2, 3], cap := 3 } (by decide) rfl).2.2.2.1 rfl (by decide)
  have h2 := from_owned_adopts_allocation.2 { addr := 3, data := [5] } (by decide)
  ⟨h1.2.1, h1.1, h2.1⟩

/-- C2 (corrected): `BytesMut::freeze` consumes the buffer and returns a
`Bytes` over the exact same allocation (the result's pointer is the
buffer's pointer; no byte is copied) whose content equals the bytes that
were pushed/extended; but its provenance is Shared (a fresh header with
reference count 1 is allocated) whenever `len < cap`, Promotable only when
`len == cap` with the buffer nonempty, and the Static empty buffer when
`len == cap == 0`. -/
theorem freeze_zero_copy (H : Heap) (g : BytesMut)
    (hle : g.data.length ≤ g.cap)
    (hrd : H.readBytes? g.addr g.data.length = some g.data) :
    (BytesMut.freeze H g).1.readBytes? (BytesMut.freeze H g).2.ptr
        (BytesMut.freeze H g).2.len = some g.data ∧
    (BytesMut.freeze H g).2.len = g.data.length ∧
    (g.data.length < g.cap →
       (BytesMut.freeze H g).2.vt = VKind.shared ∧
       (BytesMut.freeze H g).2.ptr = g.addr ∧
       (BytesMut.freeze H g).2.word = Word.header H.nextHid ∧
       (BytesMut.freeze H g).1.headers
         = (H.nextHid, { buf := g.addr, cap := g.cap, refCnt := 1 }) :: H.headers ∧
       (BytesMut.freeze H g).1.allocs = H.allocs) ∧
    (g.data.length = g.cap → g.data ≠ [] →
       (BytesMut.freeze H g).2.vt.isPromotable = true ∧
       (BytesMut.freeze H g).2.ptr = g.addr ∧
       (BytesMut.freeze H g).2.word = Word.tagged g.addr ∧
       (BytesMut.freeze H g).1 = H) ∧
    (g.data = [] → g.cap = 0 → BytesMut.freeze H g = (H, Bytes.new)) := by
  have h := from_vec_behavior H ⟨g.addr, g.data, g.cap⟩ hle hrd
  obtain ⟨h1, h2, h3, h4, h5⟩ := h
  exact ⟨h1, h2, fun hlt => (h3 (Nat.ne_of_lt hlt)).imp id (fun x => x.imp id
           (fun y => y.imp id (fun z => z.imp id And.left))), h4, h5⟩

/-- Witness for C2's theorem: freezing `{ len = 1, cap = 2 }` (the Shared
path) at a concrete heap. -/
theorem freeze_zero_copy_witness :
    (BytesMut.freeze bmHeapSlack { addr := 2, data := [7], cap := 2 }).2.vt
      = VKind.shared ∧
    (BytesMut.freeze bmHeapSlack { addr := 2, data := [7], cap := 2 }).2.ptr = 2 :=
  have h := freeze_zero_copy bmHeapSlack { addr := 2, data := [7], cap := 2 }
    (by decide) rfl
  ⟨(h.2.2.1 (by decide)).1, (h.2.2.1 (by decide)).2.1⟩

/-- A `Bytes` value whose provenance word is consistent with its vtable and
the heap: static values carry a null word; shared words (and promoted
promotable words) point at a live header; unpromoted promotable words carry
the tagged buffer address. -/
def wfProvB (H : Heap) (b : Bytes) : Bool :=
  match b.vt, b.word with
  | VKind.static, Word.null => true
  | VKind.shared, Word.header hid => (H.findHeader hid).isSome
  | VKind.promotableEven, Word.header hid => (H.findHeader hid).isSome
  | VKind.promotableOdd, Word.header hid => (H.findHeader hid).isSome
  | VKind.promotableEven, Word.tagged _ => true
  | VKind.promotableOdd, Word.tagged _ => true
  | _, _ => false

theorem cloneM_ub (H : Heap) (b : Bytes) (hwf : wfProvB H b = true) :
    (cloneM H b).1.ub = H.ub := by
  rcases b with ⟨ptr, len, word, vt⟩
  cases vt with
  | static =>
    cases word with
    | null => rfl
    | header hid => simp [wfProvB] at hwf
    | tagged a => simp [wfProvB] at hwf
  | shared =>
    cases word with
    | null => simp [wfProvB] at hwf
    | tagged a => simp [wfProvB] at hwf
    | header hid =>
      rcases hh : H.findHeader hid with _ | hd
      · simp [wfProvB, hh] at hwf
      · simp [cloneM, shallow_clone_arc, hh, Heap.setHeader]
  | promotableEven =>
    cases word with
    | null => simp [wfProvB] at hwf
    | tagged a =>
      simp only [cloneM, shallow_clone_vec]
      rw [if_pos trivial]
    | header hid =>
      rcases hh : H.findHeader hid with _ | hd
      · simp [wfProvB, hh] at hwf
      · simp [cloneM, shallow_clone_arc, hh, Heap.setHeader]
  | promotableOdd =>
    cases word with
    | null => simp [wfProvB] at hwf
    | tagged a =>
      simp only [cloneM, shallow_clone_vec]
      rw [if_pos trivial]
    | header hid =>
      rcases hh : H.findHeader hid with _ | hd
      · simp [wfProvB, hh] at hwf
      · simp [cloneM, shallow_clone_arc, hh, Heap.setHeader]

/-- C7 (confirmed): cloning a `Bytes` of any well-formed provenance —
Static, Shared, or Promotable not yet promoted (and promoted as well) —
succeeds without undefined behaviour, copies no bytes (the clone's data
pointer and length equal the original's and no buffer allocation is
touched), and both the clone's content and the original's content equal the
original content byte for byte. -/
theorem clone_zero_copy (H : Heap) (b : Bytes) (cs : List Nat)
    (hwf : wfProvB H b = true)
    (hrd : H.readBytes? b.ptr b.len = some cs) :
    (cloneM H b).2.2.ptr = b.ptr ∧
    (cloneM H b).2.2.len = b.len ∧
    (cloneM H b).1.readBytes? (cloneM H b).2.2.ptr (cloneM H b).2.2.len = some cs ∧
    (cloneM H b).2.1.ptr = b.ptr ∧
    (cloneM H b).2.1.len = b.len ∧
    (cloneM H b).1.readBytes? b.ptr b.len = some cs ∧
    (cloneM H b).1.allocs = H.allocs ∧
    (cloneM H b).1.ub = H.ub := by
  obtain ⟨hv1, hv2, hv3, hv4⟩ := cloneM_view H b
  obtain ⟨hm1, hm2⟩ := cloneM_mem H b
  have hr : (cloneM H b).1.readBytes? b.ptr b.len = some cs :=
    (readBytes?_congr H _ hm2 hm1 _ _).trans hrd
  refine ⟨hv1, hv2, ?_, hv3, hv4, hr, hm1, cloneM_ub H b hwf⟩
  rw [hv1, hv2]
  exact hr

/-- Witness for C7's theorem at a concrete static buffer. -/
theorem clone_zero_copy_witness :
    (cloneM helloHeap helloBytes).2.2.ptr = helloBytes.ptr ∧
    (cloneM helloHeap helloBytes).1.readBytes? (cloneM helloHeap helloBytes).2.2.ptr
        (cloneM helloHeap helloBytes).2.2.len = some [104, 101, 108, 108, 111] :=
  have h := clone_zero_copy helloHeap helloBytes [104, 101, 108, 108, 111] rfl rfl
  ⟨h.1, h.2.2.1⟩

/-- C8 (confirmed): the first clone of a not-yet-promoted Promotable
`Bytes` allocates exactly one header — whose buffer pointer is the tagged
backing-buffer address (the allocation's start), whose capacity is the
view's offset from that start plus the view's length, and whose reference
count is 2 — and, the sequential compare-and-swap succeeding, the clone
takes Shared provenance on that header while the original value's
provenance cell is updated to the same header. -/
theorem promotable_first_clone (H : Heap) (b : Bytes) (buf : Nat)
    (hw : b.word = Word.tagged buf) (hvt : b.vt.isPromotable = true) :
    (cloneM H b).1.headers
      = (H.nextHid, { buf := buf, cap := (b.ptr - buf) + b.len, refCnt := 2 })
          :: H.headers ∧
    (cloneM H b).1.nextHid = H.nextHid + 1 ∧
    (cloneM H b).2.2.vt = VKind.shared ∧
    (cloneM H b).2.2.word = Word.header H.nextHid ∧
    (cloneM H b).2.1.word = Word.header H.nextHid ∧
    (cloneM H b).2.1.vt = b.vt ∧
    (cloneM H b).2.2.ptr = b.ptr ∧
    (cloneM H b).2.2.len = b.len ∧
    (cloneM H b).1.allocs = H.allocs ∧
    (cloneM H b).1.ub = H.ub := by
  rcases b with ⟨ptr, len, word, vt⟩
  dsimp only at hw hvt ⊢
  subst hw
  cases vt with
  | static => simp [VKind.isPromotable] at hvt
  | shared => simp [VKind.isPromotable] at hvt
  | promotableEven =>
    simp only [cloneM, shallow_clone_vec]
    rw [if_pos trivial]
    simp
  | promotableOdd =>
    simp only [cloneM, shallow_clone_vec]
    rw [if_pos trivial]
    simp

/-- A heap holding the three-byte allocation `[1, 2, 3]` at address 4 with
no header yet. -/
def promoHeap : Heap :=
  { statics := [], allocs := [{ base := 4, content := [1, 2, 3] }],
    freedAllocs := [], headers := [], freedHeaders := [], nextHid := 0,
    nextAddr := 10, ub := false }

/-- Witness for C8's theorem: a concrete unpromoted promotable value. -/
theorem promotable_first_clone_witness :
    (cloneM promoHeap { ptr := 4, len := 3, word := Word.tagged 4,
                        vt := VKind.promotableEven }).1.headers
      = [(0, { buf := 4, cap := 3, refCnt := 2 })] ∧
    (cloneM promoHeap { ptr := 4, len := 3, word := Word.tagged 4,
                        vt := VKind.promotableEven }).2.2.vt = VKind.shared :=
  have h := promotable_first_clone promoHeap
    { ptr := 4, len := 3, word := Word.tagged 4, vt := VKind.promotableEven } 4
    rfl rfl
  ⟨h.1, h.2.2.1⟩

/-- C6 (confirmed): with original content `cs`, `split_off(at)` leaves the
receiver with content `cs[0..at]` and returns the tail with content
`cs[at..]`; `split_to(at)` returns the head with content `cs[0..at]` and
advances the receiver to content `cs[at..]`; both panic with the
out-of-bounds assertion exactly when `at > len`. -/
theorem split_off_split_to_spec (H : Heap) (b : Bytes) (at_ : Nat)
    (cs : List Nat) (hw : H.wfDisjoint)
    (hrd : H.readBytes? b.ptr b.len = some cs) :
    (at_ ≤ b.len →
       ∃ H1 b1 t, Bytes.split_off H b at_ = Except.ok (H1, b1, t) ∧
         H1.readBytes? b1.ptr b1.len = some (cs.take at_) ∧
         H1.readBytes? t.ptr t.len = some (cs.drop at_) ∧
         b1.ptr = b.ptr ∧ b1.len = at_ ∧
         t.ptr = b.ptr + at_ ∧ t.len = b.len - at_) ∧
    (at_ ≤ b.len →
       ∃ H1 b1 h1, Bytes.split_to H b at_ = Except.ok (H1, b1, h1) ∧
         H1.readBytes? h1.ptr h1.len = some (cs.take at_) ∧
         H1.readBytes? b1.ptr b1.len = some (cs.drop at_) ∧
         h1.ptr = b.ptr ∧ h1.len = at_ ∧
         b1.ptr = b.ptr + at_ ∧ b1.len = b.len - at_) ∧
    (b.len < at_ →
       Bytes.split_off H b at_ = Except.error "index out of bounds" ∧
       Bytes.split_to H b at_ = Except.error "index out of bounds") := by
  obtain ⟨hv1, hv2, hv3, hv4⟩ := cloneM_view H b
  obtain ⟨hm1, hm2⟩ := cloneM_mem H b
  have hlen := readBytes?_length H b.ptr b.len cs hrd
  have hcongr : ∀ p n, (cloneM H b).1.readBytes? p n = H.readBytes? p n :=
    fun p n => readBytes?_congr H _ hm2 hm1 p n
  have hdroplen : (cs.drop at_).length = b.len - at_ := by
    simp [hlen]
  refine ⟨?_, ?_, ?_⟩
  · intro hat
    have hinc : (cloneM H b).2.2.inc_start at_ =
        Except.ok { (cloneM H b).2.2 with len := (cloneM H b).2.2.len - at_,
                                          ptr := (cloneM H b).2.2.ptr + at_ } := by
      unfold Bytes.inc_start
      rw [if_pos (by rw [hv2]; exact hat)]
    refine ⟨(cloneM H b).1,
            { (cloneM H b).2.1 with len := at_ },
            { (cloneM H b).2.2 with len := (cloneM H b).2.2.len - at_,
                                    ptr := (cloneM H b).2.2.ptr + at_ },
            ?_, ?_, ?_, hv3, rfl, by rw [hv1], by rw [hv2]⟩
    · unfold Bytes.split_off
      rw [if_pos hat, hinc]
    · show (cloneM H b).1.readBytes? (cloneM H b).2.1.ptr at_ = some (cs.take at_)
      rw [hv3, hcongr]
      have := readBytes?_sub H hw b.ptr b.len 0 at_ cs hrd (by omega)
      simpa using this
    · show (cloneM H b).1.readBytes? ((cloneM H b).2.2.ptr + at_)
          ((cloneM H b).2.2.len - at_) = some (cs.drop at_)
      rw [hv1, hv2, hcongr]
      have := readBytes?_sub H hw b.ptr b.len at_ (b.len - at_) cs hrd (by omega)
      rw [this]
      rw [← hdroplen, List.take_length]
  · intro hat
    have hinc : (cloneM H b).2.1.inc_start at_ =
        Except.ok { (cloneM H b).2.1 with len := (cloneM H b).2.1.len - at_,
                                          ptr := (cloneM H b).2.1.ptr + at_ } := by
      unfold Bytes.inc_start
      rw [if_pos (by rw [hv4]; exact hat)]
    refine ⟨(cloneM H b).1,
            { (cloneM H b).2.1 with len := (cloneM H b).2.1.len - at_,
                                    ptr := (cloneM H b).2.1.ptr + at_ },
            { (cloneM H b).2.2 with len := at_ },
            ?_, ?_, ?_, hv1, rfl, by rw [hv3], by rw [hv4]⟩
    · unfold Bytes.split_to
      rw [if_pos hat, hinc]
    · show (cloneM H b).1.readBytes? (cloneM H b).2.2.ptr at_ = some (cs.take at_)
      rw [hv1, hcongr]
      have := readBytes?_sub H hw b.ptr b.len 0 at_ cs hrd (by omega)
      simpa using this
    · show (cloneM H b).1.readBytes? ((cloneM H b).2.1.ptr + at_)
          ((cloneM H b).2.1.len - at_) = some (cs.drop at_)
      rw [hv3, hv4, hcongr]
      have := readBytes?_sub H hw b.ptr b.len at_ (b.len - at_) cs hrd (by omega)
      rw [this]
      rw [← hdroplen, List.take_length]
  · intro hlt
    constructor
    · unfold Bytes.split_off
      rw [if_neg (by omega)]
    · unfold Bytes.split_to
      rw [if_neg (by omega)]

/-- Witness for C6's theorem: splitting the static `b"hello"` buffer at 2. -/
theorem split_off_split_to_spec_witness :
    (∃ H1 b1 t, Bytes.split_off helloHeap helloBytes 2 = Except.ok (H1, b1, t) ∧
       H1.readBytes? b1.ptr b1.len = some [104, 101] ∧
       H1.readBytes? t.ptr t.len = some [108, 108, 111] ∧
       b1.ptr = helloBytes.ptr ∧ b1.len = 2 ∧
       t.ptr = helloBytes.ptr + 2 ∧ t.len = helloBytes.len - 2) ∧
    (Bytes.split_to helloHeap helloBytes 7 =
       Except.error "index out of bounds") :=
  have h := split_off_split_to_spec helloHeap helloBytes 2
    [104, 101, 108, 108, 111] (by simp [Heap.wfDisjoint, helloHeap, List.pairwise_cons]) rfl
  have h7 := split_off_split_to_spec helloHeap helloBytes 7
    [104, 101, 108, 108, 111] (by simp [Heap.wfDisjoint, helloHeap, List.pairwise_cons]) rfl
  ⟨h.1 (by decide), (h7.2.2 (by decide)).2⟩

/-- C9 (confirmed): `push` on a full buffer doubles the capacity (capacity
0 becomes 1) and appends the byte; `reserve(additional)` leaves the
capacity unchanged when `additional <= cap - len` and otherwise sets it to
exactly `len + additional`, preserving the bytes.  The side conditions
`2 * cap <= isize::MAX` and `len + additional <= isize::MAX` keep the
growth below the overflow abort of section 7 of the spec. -/
theorem grow_reserve_spec :
    (∀ (g : BytesMut) (b : Nat), g.data.length = g.cap → 2 * g.cap ≤ isizeMax →
       BytesMut.push g b =
         Except.ok { addr := g.addr, data := g.data ++ [b],
                     cap := if g.cap = 0 then 1 else 2 * g.cap }) ∧
    (∀ (g : BytesMut) (res : Nat), res ≤ g.cap - g.data.length →
       BytesMut.reserve g res = Except.ok g) ∧
    (∀ (g : BytesMut) (res : Nat), g.data.length ≤ g.cap →
       g.cap - g.data.length < res → g.data.length + res ≤ isizeMax →
       BytesMut.reserve g res =
         Except.ok { addr := g.addr, data := g.data,
                     cap := g.data.length + res }) := by
  refine ⟨?_, ?_, ?_⟩
  · intro g b hfull hof
    have hle2 : (if g.cap = 0 then 1 else 2 * g.cap) ≤ isizeMax := by
      by_cases hc : g.cap = 0
      · rw [if_pos hc]
        norm_num [isizeMax]
      · rw [if_neg hc]
        exact hof
    simp only [BytesMut.push, BytesMut.grow]
    rw [if_pos hfull, if_pos hle2]
  · intro g res h
    simp only [BytesMut.reserve]
    rw [if_pos h]
  · intro g res h1 h2 h3
    simp only [BytesMut.reserve, BytesMut.inner_reserve]
    rw [if_neg (by omega)]
    have he : g.cap + (res - (g.cap - g.data.length)) = g.data.length + res := by
      omega
    rw [he, if_pos h3]

/-- Witness for C9's theorem: push on a full one-byte buffer; a covered
reserve; a growing reserve. -/
theorem grow_reserve_spec_witness :
    BytesMut.push { addr := 2, data := [5], cap := 1 } 9 =
      Except.ok { addr := 2, data := [5, 9], cap := 2 } ∧
    BytesMut.reserve { addr := 2, data := [5], cap := 3 } 2 =
      Except.ok { addr := 2, data := [5], cap := 3 } ∧
    BytesMut.reserve { addr := 2, data := [5], cap := 1 } 4 =
      Except.ok { addr := 2, data := [5], cap := 5 } :=
  have h1 := grow_reserve_spec.1 { addr := 2, data := [5], cap := 1 } 9
    (by decide) (by norm_num [isizeMax])
  have h2 := grow_reserve_spec.2.1 { addr := 2, data := [5], cap := 3 } 2 (by decide)
  have h3 := grow_reserve_spec.2.2 { addr := 2, data := [5], cap := 1 } 4
    (by decide) (by decide) (by norm_num [isizeMax])
  ⟨h1, h2, h3⟩

theorem put_slice_loop_all (cap : Nat) (data src : List Nat)
    (h : src.length ≤ cap - data.length) :
    put_slice_loop cap data src = some (data ++ src) := by
  cases src with
  | nil => simp [put_slice_loop]
  | cons x xs =>
    have hmin : min (cap - data.length) (x :: xs).length = (x :: xs).length :=
      Nat.min_eq_right h
    rw [put_slice_loop]
    simp only [hmin]
    rw [if_neg (by simp)]
    rw [List.take_length, List.drop_length]
    rw [put_slice_loop]

/-- C5 (confirmed): the default `BufMut::put_slice` asserts up front that
the destination's remaining capacity covers the whole source — with
capacity at least the source length it succeeds and appends exactly the
source bytes in order, and with capacity one byte short it panics before
writing anything (no partial write is observable as success); the
overridden `BytesMut::put_slice` (`extend_from_slice`) likewise appends
exactly the source bytes whenever the resulting length stays within the
platform limit. -/
theorem put_slice_spec :
    (∀ (d : CapBuf) (src : List Nat), src.length ≤ d.cap - d.data.length →
       put_slice_default d src =
         Except.ok (some { cap := d.cap, data := d.data ++ src })) ∧
    (∀ (d : CapBuf) (src : List Nat), d.cap - d.data.length + 1 = src.length →
       put_slice_default d src =
         Except.error "not enough space remaining in BufMut") ∧
    (∀ (g : BytesMut) (src : List Nat), g.data.length ≤ g.cap →
       g.data.length + src.length ≤ isizeMax →
       BytesMut.put_slice g src =
         Except.ok { addr := g.addr, data := g.data ++ src,
                     cap := if src.length ≤ g.cap - g.data.length then g.cap
                            else g.data.length + src.length }) := by
  refine ⟨?_, ?_, ?_⟩
  · intro d src h
    unfold put_slice_default
    rw [if_neg (by omega)]
    rw [put_slice_loop_all d.cap d.data src h]
    rfl
  · intro d src h
    unfold put_slice_default
    rw [if_pos (by omega)]
  · intro g src h1 h2
    simp only [BytesMut.put_slice, BytesMut.extend_from_slice, BytesMut.reserve,
               BytesMut.inner_reserve]
    by_cases hc : src.length ≤ g.cap - g.data.length
    · rw [if_pos hc, if_pos hc]
    · rw [if_neg hc, if_neg hc]
      have he : g.cap + (src.length - (g.cap - g.data.length))
          = g.data.length + src.length := by omega
      rw [he, if_pos h2]

/-- Witness for C5's theorem: an exact-capacity destination, a one-byte
short destination, and a `BytesMut` append. -/
theorem put_slice_spec_witness :
    put_slice_default { cap := 2, data := [] } [3, 4] =
      Except.ok (some { cap := 2, data := [3, 4] }) ∧
    put_slice_default { cap := 1, data := [] } [3, 4] =
      Except.error "not enough space remaining in BufMut" ∧
    BytesMut.put_slice { addr := 2, data := [1], cap := 2 } [9] =
      Except.ok { addr := 2, data := [1, 9], cap := 2 } :=
  have h1 := put_slice_spec.1 { cap := 2, data := [] } [3, 4] (by decide)
  have h2 := put_slice_spec.2.1 { cap := 1, data := [] } [3, 4] (by decide)
  have h3 := put_slice_spec.2.2 { addr := 2, data := [1], cap := 2 } [9]
    (by decide) (by norm_num [isizeMax])
  ⟨h1, h2, h3⟩
